import Mathlib

/-!
Verification of the configuration, path-organization and credential logic of
the Social-Media-Downloader repository (`smd/downloader.py`).

The Python functions are shallowly embedded: JSON/Python values are the
inductive `JValue` (JSON numbers are modelled as integers; float-valued
documents are outside the model), dictionaries are association lists with
first-occurrence semantics, and the filesystem is an explicit state.
Filesystem writes are modelled as succeeding; the logged-and-ignored
`IOError` branches are not represented.
-/

namespace SMD

/-- A parsed JSON / Python value as manipulated by `downloader.py`.
Numbers are modelled as integers. -/
inductive JValue where
  | jnull
  | jbool (b : Bool)
  | jint (n : Int)
  | jstr (s : String)
  | jarr (elems : List JValue)
  | jobj (fields : List (String × JValue))

open JValue

/-- A JSON object / Python dict, as an insertion-ordered association list. -/
abbrev Doc := List (String × JValue)

/-- First-occurrence lookup, the embedding of `d[k]` / `k in d`. -/
def lookupJ : Doc → String → Option JValue
  | [], _ => none
  | (k, v) :: rest, key => if k = key then some v else lookupJ rest key

/-- The embedding of Python's `dict.get(key, default)`. -/
def getJ (d : Doc) (key : String) (dflt : JValue) : JValue :=
  (lookupJ d key).getD dflt

/-- The embedding of `key in d`. -/
def hasKey (d : Doc) (key : String) : Bool :=
  (lookupJ d key).isSome

/-- The embedding of `d[key] = v`: replace in place, else append. -/
def setJ : Doc → String → JValue → Doc
  | [], key, v => [(key, v)]
  | (k, w) :: rest, key, v =>
    if k = key then (k, v) :: rest else (k, w) :: setJ rest key v

/-- Python truthiness (`if x:`) of a JSON value. -/
def pyTruthy : JValue → Bool
  | jnull => false
  | jbool b => b
  | jint n => n ≠ 0
  | jstr s => s ≠ ""
  | jarr elems => ¬ elems.isEmpty
  | jobj fields => ¬ fields.isEmpty

mutual
/-- The embedding of Python's `repr` on JSON values (string escaping inside
containers is not modelled; container output still starts with a bracket,
which is all the configuration validator can observe). -/
def pyRepr : JValue → String
  | jnull => "None"
  | jbool true => "True"
  | jbool false => "False"
  | jint n => toString n
  | jstr s => "'" ++ s ++ "'"
  | jarr elems => "[" ++ pyReprList elems ++ "]"
  | jobj fields => "\x7b" ++ pyReprFields fields ++ "\x7d"

/-- Comma-separated `repr` of list elements. -/
def pyReprList : List JValue → String
  | [] => ""
  | [v] => pyRepr v
  | v :: rest => pyRepr v ++ ", " ++ pyReprList rest

/-- Comma-separated `repr` of dict items. -/
def pyReprFields : List (String × JValue) → String
  | [] => ""
  | [(k, v)] => "'" ++ k ++ "': " ++ pyRepr v
  | (k, v) :: rest => "'" ++ k ++ "': " ++ pyRepr v ++ ", " ++ pyReprFields rest
end

/-- The embedding of Python's `str()` on JSON values. -/
def pyStr : JValue → String
  | jstr s => s
  | v => pyRepr v

/-- ASCII lower-casing of one character (the embedding of `str.lower` as the
validator and URL matcher use it; non-ASCII case mappings are not modelled,
and every string either function compares against is pure ASCII). -/
def charLower (c : Char) : Char :=
  if 'A' ≤ c ∧ c ≤ 'Z' then Char.ofNat (c.toNat + 32) else c

/-- The embedding of `str.lower()`. -/
def pyLower (s : String) : String :=
  String.mk (s.data.map charLower)

/-- ASCII whitespace, as stripped by Python's `int()` and `str.strip()`. -/
def isPySpace (c : Char) : Bool :=
  c = ' ' ∨ c = '\t' ∨ c = '\n' ∨ c = '\r' ∨ c = Char.ofNat 11 ∨ c = Char.ofNat 12

/-- Strip characters satisfying `p` from both ends of a character list. -/
def stripBoth (p : Char → Bool) (cs : List Char) : List Char :=
  ((cs.dropWhile p).reverse.dropWhile p).reverse

/-- Digit-group parser for Python's `int(str)`: digits with single
underscores allowed between digits.  `prev` records whether the previous
character was a digit. -/
def parseDigits : List Char → Nat → Bool → Option Nat
  | [], acc, prev => if prev then some acc else none
  | c :: cs, acc, prev =>
    if c.isDigit then parseDigits cs (acc * 10 + (c.toNat - 48)) true
    else if c = '_' ∧ prev then parseDigits cs acc false
    else none

/-- The embedding of Python's `int(s)` on a string: strip whitespace,
optional sign, ASCII digit groups (`ValueError` is `none`). -/
def pyIntOfString (s : String) : Option Int :=
  let cs := stripBoth isPySpace s.data
  match cs with
  | '+' :: rest => (parseDigits rest 0 false).map Int.ofNat
  | '-' :: rest => (parseDigits rest 0 false).map (fun n => -(n : Int))
  | rest => (parseDigits rest 0 false).map Int.ofNat

/-- The embedding of Python's `int(v)` on a JSON value (`bool` is an `int`
subclass in Python, so `int(True) = 1`; `None`, lists and dicts raise
`TypeError`, modelled as `none`). -/
def pyInt : JValue → Option Int
  | jint n => some n
  | jbool b => some (if b then 1 else 0)
  | jstr s => pyIntOfString s
  | _ => none

/-! ## Configuration management (`load_config`, `_validate_config`, `_save_config`) -/

/-- The `authentication` sub-object of `DEFAULT_CONFIG`. -/
def defaultAuthentication : Doc :=
  [("instagram_username", jstr ""),
   ("use_browser_cookies", jbool true),
   ("cookie_browser", jstr "chrome"),
   ("session_directory", jstr ".smd_sessions")]

/-- The embedding of `DEFAULT_CONFIG`, in source order. -/
def DEFAULT_CONFIG : Doc :=
  [("default_format", jstr "show_all"),
   ("download_directory", jstr "media"),
   ("history_file", jstr "download_history.csv"),
   ("mp3_quality", jstr "192"),
   ("organize_downloads", jbool true),
   ("download_metadata", jbool true),
   ("download_comments", jbool false),
   ("download_subtitles", jbool false),
   ("max_comments", jint 200),
   ("authentication", jobj defaultAuthentication)]

/-- The embedding of `VALID_DEFAULT_FORMATS`. -/
def VALID_DEFAULT_FORMATS : List String :=
  ["show_all", "mp3", "360p", "480p", "720p", "1080p", "1440p", "2160p", "4320p"]

/-- The embedding of `VALID_MP3_QUALITIES`. -/
def VALID_MP3_QUALITIES : List String :=
  ["64", "128", "192", "256", "320", "396"]

/-- The `for key, default_value in DEFAULT_CONFIG.items()` loop of
`_validate_config`, one iteration per entry of `defaults`. -/
def addMissingAux : List (String × JValue) → Doc × Bool → Doc × Bool
  | [], p => p
  | kv :: rest, p =>
    addMissingAux rest (if hasKey p.1 kv.1 then p else (setJ p.1 kv.1 kv.2, true))

/-- First phase of `_validate_config`: fill each missing top-level key from
`DEFAULT_CONFIG`, flagging a change. -/
def addMissing (doc : Doc) : Doc × Bool :=
  addMissingAux DEFAULT_CONFIG (doc, false)

/-- `_validate_config` step for `mp3_quality`: `str(value)` must be in
`VALID_MP3_QUALITIES`, otherwise reset to `"192"`. -/
def stepMp3 (p : Doc × Bool) : Doc × Bool :=
  if pyStr (getJ p.1 "mp3_quality" (jstr "192")) ∈ VALID_MP3_QUALITIES then p
  else (setJ p.1 "mp3_quality" (jstr "192"), true)

/-- `_validate_config` step for `default_format`: `str(value).lower()` must
be in `VALID_DEFAULT_FORMATS`, otherwise reset to `"show_all"`. -/
def stepFormat (p : Doc × Bool) : Doc × Bool :=
  if pyLower (pyStr (getJ p.1 "default_format" (jstr "show_all"))) ∈ VALID_DEFAULT_FORMATS
  then p
  else (setJ p.1 "default_format" (jstr "show_all"), true)

/-- Shared shape of the four boolean validation steps: a non-boolean value
is reset to `resetV`. -/
def stepBool (key : String) (getDflt : JValue) (resetV : Bool) (p : Doc × Bool) :
    Doc × Bool :=
  match getJ p.1 key getDflt with
  | jbool _ => p
  | _ => (setJ p.1 key (jbool resetV), true)

/-- `_validate_config` step for `max_comments`: `int(value)` range-checked in
`[1, 10000]`; conversion failure or out-of-range resets to `200` and flags a
change, while an in-range conversion is written back without flagging. -/
def stepMaxComments (p : Doc × Bool) : Doc × Bool :=
  match pyInt (getJ p.1 "max_comments" (jint 200)) with
  | some n =>
    if n < 1 ∨ n > 10000 then (setJ p.1 "max_comments" (jint 200), true)
    else (setJ p.1 "max_comments" (jint n), p.2)
  | none => (setJ p.1 "max_comments" (jint 200), true)

/-- The embedding of `_validate_config`, in source order.  Note the reset
value for a non-boolean `organize_downloads` is `false`, not the
`DEFAULT_CONFIG` value `true`. -/
def validateConfig (doc : Doc) : Doc × Bool :=
  stepMaxComments
    (stepBool "download_subtitles" (jbool false) false
      (stepBool "download_comments" (jbool false) false
        (stepBool "download_metadata" (jbool true) true
          (stepBool "organize_downloads" (jbool false) false
            (stepFormat (stepMp3 (addMissing doc)))))))

/-- The state of the configuration file on disk. -/
inductive FileState where
  | missing
  | unparseable
  | parsed (doc : Doc)

/-- The embedding of `load_config`: result document and resulting file
state.  A missing file is replaced by the defaults; an unparseable file is
left untouched and the defaults returned; otherwise the validated document
is returned and persisted via `_save_config` only when a change was
flagged. -/
def load_config : FileState → Doc × FileState
  | FileState.missing => (DEFAULT_CONFIG, FileState.parsed DEFAULT_CONFIG)
  | FileState.unparseable => (DEFAULT_CONFIG, FileState.unparseable)
  | FileState.parsed doc =>
    let p := validateConfig doc
    (p.1, if p.2 then FileState.parsed p.1 else FileState.parsed doc)

/-! ## Path organization (`sanitize_filename`, `detect_platform_from_url`,
`get_organized_download_path`, `get_unique_filename`) -/

/-- The characters `invalid_chars = '<>:"/\|?*'` of `sanitize_filename`. -/
def INVALID_FILENAME_CHARS : List Char :=
  ['<', '>', ':', '"', '/', '\\', '|', '?', '*']

/-- The embedding of `str.replace(c, "_")` for a single character `c`. -/
def replaceChar (cs : List Char) (c : Char) : List Char :=
  cs.map fun x => if x = c then '_' else x

/-- Leading/trailing characters stripped by `name.strip(". ")`. -/
def dotSpace (c : Char) : Bool := c = '.' ∨ c = ' '

/-- The length cap of `sanitize_filename`: `if len(name) > 100: name = name[:100]`. -/
def truncate100 (cs : List Char) : List Char :=
  if cs.length > 100 then cs.take 100 else cs

/-- The final `return name if name else "Unknown"` of `sanitize_filename`. -/
def finishName (cs : List Char) : String :=
  if cs.isEmpty then "Unknown" else String.mk cs

/-- The embedding of `sanitize_filename`: empty or all-whitespace input maps
to `"Unknown"`, then each invalid character is replaced by `_`, leading and
trailing dots and spaces are stripped, the result is truncated to 100
characters, and an empty result maps to `"Unknown"`. -/
def sanitize_filename (name : String) : String :=
  if name = "" ∨ String.mk (stripBoth isPySpace name.data) = "" then "Unknown"
  else
    finishName (truncate100 (stripBoth dotSpace
      (INVALID_FILENAME_CHARS.foldl replaceChar name.data)))

/-- Contiguous-segment containment on character lists, the embedding of
Python's `pat in s` for strings. -/
def containsSeg (pat : List Char) : List Char → Bool
  | [] => pat.isEmpty
  | c :: t => pat.isPrefixOf (c :: t) || containsSeg pat t

/-- The ordered `platform_map` of `detect_platform_from_url`, in source
order (Python dicts iterate in insertion order). -/
def platform_map : List (String × String) :=
  [("youtube.com", "YouTube"),
   ("youtu.be", "YouTube"),
   ("tiktok.com", "TikTok"),
   ("instagram.com", "Instagram"),
   ("facebook.com", "Facebook"),
   ("fb.watch", "Facebook"),
   ("x.com", "X"),
   ("twitter.com", "X"),
   ("twitch.tv", "Twitch"),
   ("clips.twitch.tv", "Twitch"),
   ("snapchat.com", "Snapchat"),
   ("reddit.com", "Reddit"),
   ("vimeo.com", "Vimeo"),
   ("dailymotion.com", "Dailymotion"),
   ("dai.ly", "Dailymotion"),
   ("rumble.com", "Rumble"),
   ("odysee.com", "Odysee"),
   ("bilibili.tv", "Bilibili"),
   ("pinterest.com", "Pinterest"),
   ("pin.it", "Pinterest"),
   ("linkedin.com", "LinkedIn"),
   ("weibo.com", "Weibo"),
   ("tumblr.com", "Tumblr")]

/-- The embedding of `detect_platform_from_url`: lower-case the URL, walk
the ordered table, first substring match wins, else `"Other"`. -/
def detect_platform_from_url (url : String) : String :=
  let urlLower := pyLower url
  match platform_map.find? (fun kv => containsSeg kv.1.data urlLower.data) with
  | some kv => kv.2
  | none => "Other"

/-- The embedding of `posixpath.join` for two components. -/
def joinPath2 (a b : String) : String :=
  if b.data.head? = some '/' then b
  else if a = "" ∨ a.data.getLast? = some '/' then a ++ b
  else a ++ "/" ++ b

/-- The embedding of `get_organized_download_path`.  The loaded global
configuration and `download_directory` are passed explicitly; metadata is
restricted to string-valued fields (the only ones the function reads); the
`os.makedirs` side effect is not part of the returned value. -/
def get_organized_download_path (config : Doc) (download_directory : String)
    (url : String) (info : Option (List (String × String)))
    (uploader_override : Option String) : String :=
  if ¬ pyTruthy (getJ config "organize_downloads" (jbool false)) then
    download_directory
  else
    let platform := detect_platform_from_url url
    let infoUploader : String :=
      match info with
      | some m =>
        if m.isEmpty then "Unknown"
        else ((m.lookup "uploader").getD ((m.lookup "channel").getD "Unknown"))
      | none => "Unknown"
    let uploader : String :=
      match uploader_override with
      | some s => if s = "" then infoUploader else s
      | none => infoUploader
    joinPath2 (joinPath2 download_directory platform) (sanitize_filename uploader)

/-- Index of the last occurrence of `c` in `cs`. -/
def rlastIdx (cs : List Char) (c : Char) : Option Nat :=
  match cs.reverse.findIdx? (· = c) with
  | some i => some (cs.length - 1 - i)
  | none => none

/-- The embedding of `os.path.splitext` (POSIX): split at the last dot of
the basename unless the basename consists only of leading dots up to it. -/
def splitext (p : String) : String × String :=
  let cs := p.data
  let start := match rlastIdx cs '/' with | some i => i + 1 | none => 0
  match rlastIdx cs '.' with
  | some d =>
    if start ≤ d ∧ ((cs.drop start).take (d - start)).any (fun c => c ≠ '.')
    then (String.mk (cs.take d), String.mk (cs.drop d))
    else (p, "")
  | none => (p, "")

/-- Decimal digits of `n`, most significant first, prepended to `acc`;
structural recursion on `fuel`, adequate whenever `n < fuel`. -/
def decStrAux : Nat → Nat → List Char → List Char
  | 0, _, acc => acc
  | fuel + 1, n, acc =>
    let d := Char.ofNat (48 + n % 10)
    if n < 10 then d :: acc else decStrAux fuel (n / 10) (d :: acc)

/-- Decimal rendering of a natural number, the embedding of Python's
`f"{counter}"`. -/
def decStr (n : Nat) : String := String.mk (decStrAux (n + 1) n [])

/-- The candidate name `f"{base} ({counter}){ext}"` of
`get_unique_filename`. -/
def mkCandidate (base ext : String) (n : Nat) : String :=
  base ++ " (" ++ decStr n ++ ")" ++ ext

/-- The `while os.path.exists(...)` loop of `get_unique_filename` over an
explicit filesystem `fs`: return the first candidate from `counter` upward
that is not taken.  Structural recursion on `fuel`; `fs.length + 1` fuel is
proved sufficient below, making the zero-fuel branch unreachable. -/
def searchFree (fs : List String) (base ext : String) : Nat → Nat → String
  | 0, counter => mkCandidate base ext counter
  | fuel + 1, counter =>
    let cand := mkCandidate base ext counter
    if cand ∈ fs then searchFree fs base ext fuel (counter + 1) else cand

/-- The embedding of `get_unique_filename` over an explicit filesystem
(`os.path.exists` becomes membership in `fs`). -/
def get_unique_filename (fs : List String) (filename : String) : String :=
  if filename ∈ fs then
    let be := splitext filename
    searchFree fs be.1 be.2 (fs.length + 1) 1
  else filename

/-! ## Credential encryption (`_encrypt_credential`, `_decrypt_credential`)

The external `cryptography.fernet`, `base64` and text-codec primitives are
collaborators outside this repository; they are passed as an explicit
record, and the theorems assume exactly their documented contracts. -/

/-- The external primitives used by `_encrypt_credential` /
`_decrypt_credential`: `str.encode` / `bytes.decode` (UTF-8),
`Fernet.encrypt` / `Fernet.decrypt` under the one stored key file, and
`base64.urlsafe_b64encode` / `base64.urlsafe_b64decode`.  Byte strings are
lists of byte values; a failing primitive (raising) returns `none`. -/
structure CredentialCodec where
  strEncode : String → List Nat
  strDecode : List Nat → Option String
  fernetEncrypt : List Nat → List Nat
  fernetDecrypt : List Nat → Option (List Nat)
  b64encode : List Nat → String
  b64decode : String → Option (List Nat)

/-- The embedding of `_encrypt_credential`. -/
def encrypt_credential (c : CredentialCodec) (credential : String) : String :=
  c.b64encode (c.fernetEncrypt (c.strEncode credential))

/-- The embedding of `_decrypt_credential`: any failure inside the `try`
block yields the empty string. -/
def decrypt_credential (c : CredentialCodec) (encryptedCredential : String) : String :=
  match c.b64decode encryptedCredential with
  | none => ""
  | some bs =>
    match c.fernetDecrypt bs with
    | none => ""
    | some pt => (c.strDecode pt).getD ""

/-! ## Derived predicates on configurations -/

/-- The repaired value of one boolean field with reset value `reset`:
booleans are kept, anything else becomes `jbool reset`. -/
def boolRepair (reset : Bool) : JValue → JValue
  | jbool b => jbool b
  | _ => jbool reset

/-- The repaired value of the `max_comments` field: the Python `int()`
conversion, range-checked in `[1, 10000]`, with `200` on failure or
out-of-range. -/
def maxCommentsRepair (v : JValue) : JValue :=
  match pyInt v with
  | some n => if n < 1 ∨ n > 10000 then jint 200 else jint n
  | none => jint 200

/-- Is this lookup result a boolean value? -/
def isJBool : Option JValue → Bool
  | some (jbool _) => true
  | _ => false

/-- Is this lookup result an integer in `[1, 10000]`? -/
def isIntInRange : Option JValue → Bool
  | some (jint n) => decide (1 ≤ n ∧ n ≤ 10000)
  | _ => false

/-- The invariant `_validate_config` actually establishes: every top-level
recognized key is present, the two enum fields pass their (string-coerced,
case-insensitive for `default_format`) membership tests, the four boolean
fields hold booleans, and `max_comments` holds an integer in `[1, 10000]`.
The values of `download_directory`, `history_file` and `authentication` are
not constrained beyond presence. -/
def configOK (d : Doc) : Prop :=
  (∀ kv ∈ DEFAULT_CONFIG, hasKey d kv.1 = true) ∧
  pyStr (getJ d "mp3_quality" (jstr "192")) ∈ VALID_MP3_QUALITIES ∧
  pyLower (pyStr (getJ d "default_format" (jstr "show_all"))) ∈ VALID_DEFAULT_FORMATS ∧
  isJBool (lookupJ d "organize_downloads") = true ∧
  isJBool (lookupJ d "download_metadata") = true ∧
  isJBool (lookupJ d "download_comments") = true ∧
  isJBool (lookupJ d "download_subtitles") = true ∧
  isIntInRange (lookupJ d "max_comments") = true

/-! ## Association-list lemmas -/

theorem lookupJ_setJ_self (d : Doc) (k : String) (v : JValue) :
    lookupJ (setJ d k v) k = some v := by
  induction d with
  | nil => simp [setJ, lookupJ]
  | cons kv rest ih =>
    obtain ⟨k0, w⟩ := kv
    by_cases h : k0 = k
    · simp [setJ, h, lookupJ]
    · simp [setJ, h, lookupJ, ih]

theorem lookupJ_setJ_ne (d : Doc) {k k' : String} (h : k' ≠ k) (v : JValue) :
    lookupJ (setJ d k v) k' = lookupJ d k' := by
  induction d with
  | nil => simp [setJ, lookupJ, Ne.symm h]
  | cons kv rest ih =>
    obtain ⟨k0, w⟩ := kv
    by_cases h0 : k0 = k
    · subst h0
      simp [setJ, lookupJ, Ne.symm h]
    · simp only [setJ, if_neg h0, lookupJ]
      by_cases h1 : k0 = k'
      · simp [h1]
      · simp [h1, ih]

theorem hasKey_setJ_self (d : Doc) (k : String) (v : JValue) :
    hasKey (setJ d k v) k = true := by
  simp [hasKey, lookupJ_setJ_self]

theorem hasKey_setJ_of {d : Doc} {k' : String} (k : String) (v : JValue)
    (h : hasKey d k' = true) : hasKey (setJ d k v) k' = true := by
  by_cases e : k' = k
  · subst e; exact hasKey_setJ_self d k' v
  · simpa [hasKey, lookupJ_setJ_ne d e v] using h

theorem setJ_self_of_lookupJ {d : Doc} {k : String} {v : JValue}
    (h : lookupJ d k = some v) : setJ d k v = d := by
  induction d with
  | nil => simp [lookupJ] at h
  | cons kv rest ih =>
    obtain ⟨k0, w⟩ := kv
    by_cases h0 : k0 = k
    · subst h0
      have hw : w = v := by simpa [lookupJ] using h
      subst hw
      simp [setJ]
    · simp only [lookupJ, if_neg h0] at h
      simp [setJ, h0, ih h]

/-! ## Lemmas about the missing-key pass -/

theorem addMissingAux_lookup_of_some {l : List (String × JValue)} {p : Doc × Bool}
    {k : String} {v : JValue} (h : lookupJ p.1 k = some v) :
    lookupJ (addMissingAux l p).1 k = some v := by
  induction l generalizing p with
  | nil => exact h
  | cons kv rest ih =>
    simp only [addMissingAux]
    by_cases hk : hasKey p.1 kv.1
    · rw [if_pos hk]; exact ih h
    · rw [if_neg hk]
      apply ih
      have hne : k ≠ kv.1 := by
        intro e
        exact hk (by simp [hasKey, ← e, h])
      simpa [lookupJ_setJ_ne _ hne] using h

theorem addMissingAux_hasKey_of {l : List (String × JValue)} {p : Doc × Bool}
    {k : String} (h : hasKey p.1 k = true) :
    hasKey (addMissingAux l p).1 k = true := by
  induction l generalizing p with
  | nil => exact h
  | cons kv rest ih =>
    simp only [addMissingAux]
    by_cases hk : hasKey p.1 kv.1
    · rw [if_pos hk]; exact ih h
    · rw [if_neg hk]; exact ih (hasKey_setJ_of kv.1 kv.2 h)

theorem addMissingAux_hasKey_mem {l : List (String × JValue)} {p : Doc × Bool}
    {kv : String × JValue} (h : kv ∈ l) :
    hasKey (addMissingAux l p).1 kv.1 = true := by
  induction l generalizing p with
  | nil => cases h
  | cons kv0 rest ih =>
    simp only [addMissingAux]
    rcases List.mem_cons.mp h with he | hm
    · subst he
      by_cases hk : hasKey p.1 kv.1
      · rw [if_pos hk]; exact addMissingAux_hasKey_of hk
      · rw [if_neg hk]
        exact addMissingAux_hasKey_of (hasKey_setJ_self _ _ _)
    · by_cases hk : hasKey p.1 kv0.1
      · rw [if_pos hk]; exact ih hm
      · rw [if_neg hk]; exact ih hm

theorem addMissingAux_lookup_of_not_mem {l : List (String × JValue)} {p : Doc × Bool}
    {k : String} (h : ∀ kv ∈ l, kv.1 ≠ k) :
    lookupJ (addMissingAux l p).1 k = lookupJ p.1 k := by
  induction l generalizing p with
  | nil => rfl
  | cons kv rest ih =>
    simp only [addMissingAux]
    have hrest : ∀ kv' ∈ rest, kv'.1 ≠ k := fun kv' hm => h kv' (List.mem_cons_of_mem _ hm)
    by_cases hk : hasKey p.1 kv.1
    · rw [if_pos hk]; exact ih hrest
    · rw [if_neg hk]
      rw [ih hrest]
      exact lookupJ_setJ_ne _ (fun e => h kv (List.mem_cons_self kv rest) e.symm) _

theorem addMissingAux_of_all_present {l : List (String × JValue)} {p : Doc × Bool}
    (h : ∀ kv ∈ l, hasKey p.1 kv.1 = true) :
    addMissingAux l p = p := by
  induction l with
  | nil => rfl
  | cons kv rest ih =>
    simp only [addMissingAux, if_pos (h kv (List.mem_cons_self kv rest))]
    exact ih fun kv' hm => h kv' (List.mem_cons_of_mem _ hm)

/-! ## Lemmas about the individual validation steps -/

theorem stepMp3_lookup_ne (p : Doc × Bool) (k : String) (h : k ≠ "mp3_quality") :
    lookupJ (stepMp3 p).1 k = lookupJ p.1 k := by
  unfold stepMp3
  split
  · rfl
  · exact lookupJ_setJ_ne _ h _

theorem stepMp3_hasKey_of {p : Doc × Bool} {k : String} (h : hasKey p.1 k = true) :
    hasKey (stepMp3 p).1 k = true := by
  unfold stepMp3
  split
  · exact h
  · exact hasKey_setJ_of _ _ h

theorem stepMp3_post (p : Doc × Bool) :
    pyStr (getJ (stepMp3 p).1 "mp3_quality" (jstr "192")) ∈ VALID_MP3_QUALITIES := by
  unfold stepMp3
  split
  · assumption
  · simp [getJ, lookupJ_setJ_self, pyStr, VALID_MP3_QUALITIES]

theorem stepMp3_of_valid {p : Doc × Bool}
    (h : pyStr (getJ p.1 "mp3_quality" (jstr "192")) ∈ VALID_MP3_QUALITIES) :
    stepMp3 p = p := by
  unfold stepMp3
  exact if_pos h

theorem stepFormat_lookup_ne (p : Doc × Bool) (k : String) (h : k ≠ "default_format") :
    lookupJ (stepFormat p).1 k = lookupJ p.1 k := by
  unfold stepFormat
  split
  · rfl
  · exact lookupJ_setJ_ne _ h _

theorem stepFormat_hasKey_of {p : Doc × Bool} {k : String} (h : hasKey p.1 k = true) :
    hasKey (stepFormat p).1 k = true := by
  unfold stepFormat
  split
  · exact h
  · exact hasKey_setJ_of _ _ h

theorem stepFormat_post (p : Doc × Bool) :
    pyLower (pyStr (getJ (stepFormat p).1 "default_format" (jstr "show_all"))) ∈
      VALID_DEFAULT_FORMATS := by
  unfold stepFormat
  split
  · assumption
  · have h0 : pyLower (pyStr (jstr "show_all")) ∈ VALID_DEFAULT_FORMATS := by decide
    simpa [getJ, lookupJ_setJ_self] using h0

theorem stepFormat_of_valid {p : Doc × Bool}
    (h : pyLower (pyStr (getJ p.1 "default_format" (jstr "show_all"))) ∈
      VALID_DEFAULT_FORMATS) :
    stepFormat p = p := by
  unfold stepFormat
  exact if_pos h

theorem stepBool_lookup_ne (key : String) (dflt : JValue) (r : Bool) (p : Doc × Bool)
    (k : String) (h : k ≠ key) :
    lookupJ (stepBool key dflt r p).1 k = lookupJ p.1 k := by
  unfold stepBool
  split
  · rfl
  · exact lookupJ_setJ_ne _ h _

theorem stepBool_hasKey_of {key : String} {dflt : JValue} {r : Bool} {p : Doc × Bool}
    {k : String} (h : hasKey p.1 k = true) :
    hasKey (stepBool key dflt r p).1 k = true := by
  unfold stepBool
  split
  · exact h
  · exact hasKey_setJ_of _ _ h

theorem stepBool_post (key : String) (dflt : JValue) (r : Bool) (p : Doc × Bool)
    (h : hasKey p.1 key = true) :
    isJBool (lookupJ (stepBool key dflt r p).1 key) = true := by
  cases hv : lookupJ p.1 key with
  | none => simp [hasKey, hv] at h
  | some v =>
    cases v <;>
      simp [stepBool, getJ, hv, isJBool, lookupJ_setJ_self]

theorem stepBool_lookup_val (key : String) (dflt : JValue) (r : Bool) (p : Doc × Bool)
    {v : JValue} (h : lookupJ p.1 key = some v) :
    lookupJ (stepBool key dflt r p).1 key = some (boolRepair r v) := by
  cases v <;>
    simp [stepBool, getJ, h, boolRepair, lookupJ_setJ_self]

theorem stepBool_of_bool (key : String) (dflt : JValue) (r : Bool) {p : Doc × Bool}
    (h : isJBool (lookupJ p.1 key) = true) :
    stepBool key dflt r p = p := by
  cases hv : lookupJ p.1 key with
  | none => rw [hv] at h; simp [isJBool] at h
  | some v =>
    rw [hv] at h
    cases v with
    | jbool b => simp [stepBool, getJ, hv]
    | jnull => simp [isJBool] at h
    | jint n => simp [isJBool] at h
    | jstr s => simp [isJBool] at h
    | jarr es => simp [isJBool] at h
    | jobj fs => simp [isJBool] at h

theorem stepMaxComments_lookup_ne (p : Doc × Bool) (k : String) (h : k ≠ "max_comments") :
    lookupJ (stepMaxComments p).1 k = lookupJ p.1 k := by
  unfold stepMaxComments
  split
  · split
    · exact lookupJ_setJ_ne _ h _
    · exact lookupJ_setJ_ne _ h _
  · exact lookupJ_setJ_ne _ h _

theorem stepMaxComments_hasKey_of {p : Doc × Bool} {k : String}
    (h : hasKey p.1 k = true) :
    hasKey (stepMaxComments p).1 k = true := by
  unfold stepMaxComments
  split
  · split
    · exact hasKey_setJ_of _ _ h
    · exact hasKey_setJ_of _ _ h
  · exact hasKey_setJ_of _ _ h

theorem stepMaxComments_post (p : Doc × Bool) :
    isIntInRange (lookupJ (stepMaxComments p).1 "max_comments") = true := by
  unfold stepMaxComments
  cases hm : pyInt (getJ p.1 "max_comments" (jint 200)) with
  | none =>
    simp only [lookupJ_setJ_self, isIntInRange]
    decide
  | some n =>
    by_cases hr : n < 1 ∨ n > 10000
    · simp only [hr, if_true, lookupJ_setJ_self, isIntInRange]
      decide
    · simp only [hr, if_false, lookupJ_setJ_self, isIntInRange]
      rw [decide_eq_true_eq]
      omega

theorem stepMaxComments_lookup_val (p : Doc × Bool) {v : JValue}
    (h : lookupJ p.1 "max_comments" = some v) :
    lookupJ (stepMaxComments p).1 "max_comments" = some (maxCommentsRepair v) := by
  have hg : getJ p.1 "max_comments" (jint 200) = v := by simp [getJ, h]
  unfold stepMaxComments maxCommentsRepair
  rw [hg]
  cases hv : pyInt v with
  | none => simp [hv, lookupJ_setJ_self]
  | some n =>
    by_cases hr : n < 1 ∨ n > 10000
    · simp [hv, hr, lookupJ_setJ_self]
    · simp [hv, hr, lookupJ_setJ_self]

theorem stepMaxComments_of_inrange {p : Doc × Bool}
    (h : isIntInRange (lookupJ p.1 "max_comments") = true) :
    stepMaxComments p = p := by
  cases hv : lookupJ p.1 "max_comments" with
  | none => rw [hv] at h; simp [isIntInRange] at h
  | some v =>
    rw [hv] at h
    cases v with
    | jint n =>
      have hr : 1 ≤ n ∧ n ≤ 10000 := by simpa [isIntInRange] using h
      have hg : getJ p.1 "max_comments" (jint 200) = jint n := by simp [getJ, hv]
      unfold stepMaxComments
      rw [hg]
      simp only [pyInt]
      rw [if_neg (by omega : ¬(n < 1 ∨ n > 10000))]
      rw [setJ_self_of_lookupJ hv]
    | jnull => simp [isIntInRange] at h
    | jbool b => simp [isIntInRange] at h
    | jstr s => simp [isIntInRange] at h
    | jarr es => simp [isIntInRange] at h
    | jobj fs => simp [isIntInRange] at h

/-! ## The validation pipeline establishes and preserves `configOK` -/

theorem addMissingAux_hasKey_key {l : List (String × JValue)} {p : Doc × Bool}
    (k : String) (h : k ∈ l.map Prod.fst) :
    hasKey (addMissingAux l p).1 k = true := by
  obtain ⟨kv, hkv, hk⟩ := List.mem_map.mp h
  subst hk
  exact addMissingAux_hasKey_mem hkv

theorem validateConfig_configOK (doc : Doc) : configOK (validateConfig doc).1 := by
  unfold validateConfig configOK
  refine ⟨?_, ?_, ?_, ?_, ?_, ?_, ?_, ?_⟩
  · intro kv h
    exact stepMaxComments_hasKey_of (stepBool_hasKey_of (stepBool_hasKey_of
      (stepBool_hasKey_of (stepBool_hasKey_of (stepFormat_hasKey_of
        (stepMp3_hasKey_of (addMissingAux_hasKey_mem h)))))))
  · unfold getJ
    rw [stepMaxComments_lookup_ne _ "mp3_quality" (by decide),
      stepBool_lookup_ne "download_subtitles" (jbool false) false _ "mp3_quality" (by decide),
      stepBool_lookup_ne "download_comments" (jbool false) false _ "mp3_quality" (by decide),
      stepBool_lookup_ne "download_metadata" (jbool true) true _ "mp3_quality" (by decide),
      stepBool_lookup_ne "organize_downloads" (jbool false) false _ "mp3_quality" (by decide),
      stepFormat_lookup_ne _ "mp3_quality" (by decide)]
    simpa [getJ] using stepMp3_post (addMissing doc)
  · unfold getJ
    rw [stepMaxComments_lookup_ne _ "default_format" (by decide),
      stepBool_lookup_ne "download_subtitles" (jbool false) false _ "default_format" (by decide),
      stepBool_lookup_ne "download_comments" (jbool false) false _ "default_format" (by decide),
      stepBool_lookup_ne "download_metadata" (jbool true) true _ "default_format" (by decide),
      stepBool_lookup_ne "organize_downloads" (jbool false) false _ "default_format" (by decide)]
    simpa [getJ] using stepFormat_post (stepMp3 (addMissing doc))
  · rw [stepMaxComments_lookup_ne _ "organize_downloads" (by decide),
      stepBool_lookup_ne "download_subtitles" (jbool false) false _ "organize_downloads" (by decide),
      stepBool_lookup_ne "download_comments" (jbool false) false _ "organize_downloads" (by decide),
      stepBool_lookup_ne "download_metadata" (jbool true) true _ "organize_downloads" (by decide)]
    exact stepBool_post _ _ _ _ (stepFormat_hasKey_of (stepMp3_hasKey_of
      (addMissingAux_hasKey_key _ (by decide))))
  · rw [stepMaxComments_lookup_ne _ "download_metadata" (by decide),
      stepBool_lookup_ne "download_subtitles" (jbool false) false _ "download_metadata" (by decide),
      stepBool_lookup_ne "download_comments" (jbool false) false _ "download_metadata" (by decide)]
    exact stepBool_post _ _ _ _ (stepBool_hasKey_of (stepFormat_hasKey_of
      (stepMp3_hasKey_of (addMissingAux_hasKey_key _ (by decide)))))
  · rw [stepMaxComments_lookup_ne _ "download_comments" (by decide),
      stepBool_lookup_ne "download_subtitles" (jbool false) false _ "download_comments" (by decide)]
    exact stepBool_post _ _ _ _ (stepBool_hasKey_of (stepBool_hasKey_of
      (stepFormat_hasKey_of (stepMp3_hasKey_of (addMissingAux_hasKey_key _ (by decide))))))
  · rw [stepMaxComments_lookup_ne _ "download_subtitles" (by decide)]
    exact stepBool_post _ _ _ _ (stepBool_hasKey_of (stepBool_hasKey_of
      (stepBool_hasKey_of (stepFormat_hasKey_of (stepMp3_hasKey_of
        (addMissingAux_hasKey_key _ (by decide)))))))
  · exact stepMaxComments_post _

theorem validateConfig_of_configOK {d : Doc} (h : configOK d) :
    validateConfig d = (d, false) := by
  obtain ⟨hkeys, hmp3, hfmt, horg, hmet, hcom, hsub, hmax⟩ := h
  unfold validateConfig addMissing
  rw [addMissingAux_of_all_present hkeys]
  rw [stepMp3_of_valid hmp3, stepFormat_of_valid hfmt,
    stepBool_of_bool "organize_downloads" (jbool false) false horg,
    stepBool_of_bool "download_metadata" (jbool true) true hmet,
    stepBool_of_bool "download_comments" (jbool false) false hcom,
    stepBool_of_bool "download_subtitles" (jbool false) false hsub,
    stepMaxComments_of_inrange hmax]

theorem validateConfig_idem (doc : Doc) :
    validateConfig (validateConfig doc).1 = ((validateConfig doc).1, false) :=
  validateConfig_of_configOK (validateConfig_configOK doc)

theorem load_config_parsed_eq (doc : Doc) :
    load_config (FileState.parsed doc) =
      ((validateConfig doc).1,
        if (validateConfig doc).2 then FileState.parsed (validateConfig doc).1
        else FileState.parsed doc) := by
  simp only [load_config]

theorem load_config_twice (doc : Doc) :
    load_config (load_config (FileState.parsed doc)).2 =
      ((load_config (FileState.parsed doc)).1, (load_config (FileState.parsed doc)).2) := by
  rw [load_config_parsed_eq]
  cases h : (validateConfig doc).2 with
  | false =>
    simp only [Bool.false_eq_true, if_false]
    rw [load_config_parsed_eq, h]
    simp
  | true =>
    simp only [if_true]
    rw [load_config_parsed_eq, validateConfig_idem]
    simp

/-! ## Claim theorems about the configuration component -/

/-- Claim C1, counterexample: a configuration whose `authentication` key is
present but empty is accepted by `load_config` unchanged — the returned
document's `authentication` object lacks `instagram_username` (and the other
three sub-keys), and the file is not rewritten, so neither the result nor
the on-disk document contains the four authentication sub-keys. -/
theorem load_config_authentication_not_validated :
    (match lookupJ (load_config (FileState.parsed
        (setJ DEFAULT_CONFIG "authentication" (jobj [])))).1 "authentication" with
      | some (jobj a) => hasKey a "instagram_username"
      | _ => true) = false ∧
    (load_config (FileState.parsed (setJ DEFAULT_CONFIG "authentication" (jobj [])))).2 =
      FileState.parsed (setJ DEFAULT_CONFIG "authentication" (jobj [])) :=
  ⟨rfl, rfl⟩

/-- Claim C1 as amended: for every parseable configuration document (and
for a missing file replaced by defaults), `load_config` returns a document
satisfying `configOK` — every recognized top-level key present, enum,
boolean and `max_comments` fields passing their validity predicates — and
whenever the repair pass flagged a correction the corrected document is
what is written back to disk.  (Sub-keys of a present `authentication`
value and the types of the two path-string fields are not validated.) -/
theorem load_config_establishes_configOK (doc : Doc) :
    configOK (load_config (FileState.parsed doc)).1 ∧
    configOK (load_config FileState.missing).1 ∧
    ((validateConfig doc).2 = true →
      (load_config (FileState.parsed doc)).2 =
        FileState.parsed (load_config (FileState.parsed doc)).1) := by
  refine ⟨?_, ?_, ?_⟩
  · simp only [load_config_parsed_eq]
    exact validateConfig_configOK doc
  · have hm : (load_config FileState.missing).1 = DEFAULT_CONFIG := rfl
    rw [hm]
    unfold configOK
    decide
  · intro h
    simp only [load_config_parsed_eq, h]
    simp

/-- Witness for the amended claim C1 at the empty document. -/
theorem load_config_establishes_configOK_witness :
    (load_config (FileState.parsed [])).2 =
      FileState.parsed (load_config (FileState.parsed [])).1 :=
  (load_config_establishes_configOK []).2.2 (by rfl)

/-- Claim C2, counterexample: a non-boolean `organize_downloads` is reset
to `false` by the repair pass, not to its documented default `true`. -/
theorem organize_downloads_reset_not_default :
    lookupJ DEFAULT_CONFIG "organize_downloads" = some (jbool true) ∧
    lookupJ (validateConfig (setJ DEFAULT_CONFIG "organize_downloads" (jstr "yes"))).1
      "organize_downloads" = some (jbool false) ∧
    jbool false ≠ jbool true :=
  ⟨rfl, rfl, by simp⟩

/-- Claim C2 as amended: for every configuration document and stored value,
the repair pass maps each boolean-typed field through `boolRepair`: a
boolean value is kept unchanged, and a non-boolean value is reset to the
field's reset value — `true` for `download_metadata`, `false` for
`download_comments` and `download_subtitles` (their documented defaults),
but `false` for `organize_downloads`, whose documented default is `true`. -/
theorem validateConfig_bool_fields_repair (doc : Doc) (v : JValue) :
    (lookupJ doc "organize_downloads" = some v →
      lookupJ (validateConfig doc).1 "organize_downloads" = some (boolRepair false v)) ∧
    (lookupJ doc "download_metadata" = some v →
      lookupJ (validateConfig doc).1 "download_metadata" = some (boolRepair true v)) ∧
    (lookupJ doc "download_comments" = some v →
      lookupJ (validateConfig doc).1 "download_comments" = some (boolRepair false v)) ∧
    (lookupJ doc "download_subtitles" = some v →
      lookupJ (validateConfig doc).1 "download_subtitles" = some (boolRepair false v)) := by
  refine ⟨fun h => ?_, fun h => ?_, fun h => ?_, fun h => ?_⟩
  · unfold validateConfig
    rw [stepMaxComments_lookup_ne _ "organize_downloads" (by decide),
      stepBool_lookup_ne "download_subtitles" (jbool false) false _ "organize_downloads" (by decide),
      stepBool_lookup_ne "download_comments" (jbool false) false _ "organize_downloads" (by decide),
      stepBool_lookup_ne "download_metadata" (jbool true) true _ "organize_downloads" (by decide)]
    refine stepBool_lookup_val _ _ _ _ ?_
    rw [stepFormat_lookup_ne _ "organize_downloads" (by decide),
      stepMp3_lookup_ne _ "organize_downloads" (by decide)]
    exact addMissingAux_lookup_of_some h
  · unfold validateConfig
    rw [stepMaxComments_lookup_ne _ "download_metadata" (by decide),
      stepBool_lookup_ne "download_subtitles" (jbool false) false _ "download_metadata" (by decide),
      stepBool_lookup_ne "download_comments" (jbool false) false _ "download_metadata" (by decide)]
    refine stepBool_lookup_val _ _ _ _ ?_
    rw [stepBool_lookup_ne "organize_downloads" (jbool false) false _ "download_metadata" (by decide),
      stepFormat_lookup_ne _ "download_metadata" (by decide),
      stepMp3_lookup_ne _ "download_metadata" (by decide)]
    exact addMissingAux_lookup_of_some h
  · unfold validateConfig
    rw [stepMaxComments_lookup_ne _ "download_comments" (by decide),
      stepBool_lookup_ne "download_subtitles" (jbool false) false _ "download_comments" (by decide)]
    refine stepBool_lookup_val _ _ _ _ ?_
    rw [stepBool_lookup_ne "download_metadata" (jbool true) true _ "download_comments" (by decide),
      stepBool_lookup_ne "organize_downloads" (jbool false) false _ "download_comments" (by decide),
      stepFormat_lookup_ne _ "download_comments" (by decide),
      stepMp3_lookup_ne _ "download_comments" (by decide)]
    exact addMissingAux_lookup_of_some h
  · unfold validateConfig
    rw [stepMaxComments_lookup_ne _ "download_subtitles" (by decide)]
    refine stepBool_lookup_val _ _ _ _ ?_
    rw [stepBool_lookup_ne "download_comments" (jbool false) false _ "download_subtitles" (by decide),
      stepBool_lookup_ne "download_metadata" (jbool true) true _ "download_subtitles" (by decide),
      stepBool_lookup_ne "organize_downloads" (jbool false) false _ "download_subtitles" (by decide),
      stepFormat_lookup_ne _ "download_subtitles" (by decide),
      stepMp3_lookup_ne _ "download_subtitles" (by decide)]
    exact addMissingAux_lookup_of_some h

/-- Witness for the amended claim C2 at the default document. -/
theorem validateConfig_bool_fields_repair_witness :
    lookupJ (validateConfig DEFAULT_CONFIG).1 "organize_downloads" =
      some (boolRepair false (jbool true)) :=
  (validateConfig_bool_fields_repair DEFAULT_CONFIG (jbool true)).1 rfl

/-- Claim C3, counterexample: a stored `max_comments` of the JSON boolean
`true` — a non-integer value — is repaired to `1` (Python's `int(True)`),
not to `200`. -/
theorem max_comments_bool_not_reset :
    lookupJ (setJ DEFAULT_CONFIG "max_comments" (jbool true)) "max_comments" =
      some (jbool true) ∧
    lookupJ (validateConfig (setJ DEFAULT_CONFIG "max_comments" (jbool true))).1
      "max_comments" = some (jint 1) ∧
    jint 1 ≠ jint 200 :=
  ⟨rfl, rfl, by simp⟩

/-- Claim C3 as amended: for every stored `max_comments` value, the repair
pass replaces it by `maxCommentsRepair`: Python's `int()` conversion kept
when it succeeds and lands in `[1, 10000]` (so the boolean `true` becomes
`1` and a numeric string becomes its value), and `200` when the conversion
fails or falls out of range.  In particular an integer already in range is
kept, and a non-convertible, negative, zero or `> 10000` value becomes
`200`. -/
theorem validateConfig_max_comments_repair (doc : Doc) (v : JValue)
    (h : lookupJ doc "max_comments" = some v) :
    lookupJ (validateConfig doc).1 "max_comments" = some (maxCommentsRepair v) := by
  unfold validateConfig
  refine stepMaxComments_lookup_val _ ?_
  rw [stepBool_lookup_ne "download_subtitles" (jbool false) false _ "max_comments" (by decide),
    stepBool_lookup_ne "download_comments" (jbool false) false _ "max_comments" (by decide),
    stepBool_lookup_ne "download_metadata" (jbool true) true _ "max_comments" (by decide),
    stepBool_lookup_ne "organize_downloads" (jbool false) false _ "max_comments" (by decide),
    stepFormat_lookup_ne _ "max_comments" (by decide),
    stepMp3_lookup_ne _ "max_comments" (by decide)]
  exact addMissingAux_lookup_of_some h

/-- Witness for the amended claim C3 at the default document. -/
theorem validateConfig_max_comments_repair_witness :
    lookupJ (validateConfig DEFAULT_CONFIG).1 "max_comments" =
      some (maxCommentsRepair (jint 200)) :=
  validateConfig_max_comments_repair DEFAULT_CONFIG (jint 200) rfl

/-- Claim C4, counterexample: with `max_comments` stored as the string
`"5"`, the repair pass silently coerces the in-memory value to the integer
`5` without flagging a change, so a key's value was corrected yet the file
is left as the original document, which differs from the in-memory
result. -/
theorem load_config_silent_coercion_not_persisted :
    lookupJ (setJ DEFAULT_CONFIG "max_comments" (jstr "5")) "max_comments" =
      some (jstr "5") ∧
    lookupJ (load_config (FileState.parsed
      (setJ DEFAULT_CONFIG "max_comments" (jstr "5")))).1 "max_comments" =
      some (jint 5) ∧
    (load_config (FileState.parsed (setJ DEFAULT_CONFIG "max_comments" (jstr "5")))).2 =
      FileState.parsed (setJ DEFAULT_CONFIG "max_comments" (jstr "5")) ∧
    some (jint 5) ≠ some (jstr "5") :=
  ⟨rfl, rfl, rfl, by simp⟩

/-- Claim C4 as amended: for every configuration document, `load_config`
yields a document with all recognized keys present and the validated
fields passing their predicates; whenever the repair pass flags a
correction (missing key filled, or an invalid enum, boolean or
`max_comments` value reset) the persisted file equals the in-memory
result; and loading is idempotent — a second `load_config` on the
resulting file state returns the same document and the same file state,
performing no further correction or rewrite.  (The silent integer coercion
of `max_comments` is not flagged, so it alone does not trigger a
rewrite.) -/
theorem load_config_idempotent (doc : Doc) :
    configOK (load_config (FileState.parsed doc)).1 ∧
    ((validateConfig doc).2 = true →
      (load_config (FileState.parsed doc)).2 =
        FileState.parsed (load_config (FileState.parsed doc)).1) ∧
    load_config (load_config (FileState.parsed doc)).2 =
      ((load_config (FileState.parsed doc)).1, (load_config (FileState.parsed doc)).2) := by
  refine ⟨?_, ?_, load_config_twice doc⟩
  · simp only [load_config_parsed_eq]
    exact validateConfig_configOK doc
  · intro h
    simp only [load_config_parsed_eq, h]
    simp

/-- Witness for the amended claim C4 at the empty document. -/
theorem load_config_idempotent_witness :
    (load_config (FileState.parsed [])).2 =
      FileState.parsed (load_config (FileState.parsed [])).1 ∧
    load_config (load_config (FileState.parsed [])).2 =
      ((load_config (FileState.parsed [])).1, (load_config (FileState.parsed [])).2) :=
  ⟨(load_config_idempotent []).2.1 (by rfl), (load_config_idempotent []).2.2⟩

/-- Claim C10: the repair pass only adds or modifies recognized keys — any
key outside `DEFAULT_CONFIG`'s key set keeps exactly its input value in
the validated document, in the document `load_config` returns, and in
whatever document ends up on disk. -/
theorem validateConfig_preserves_unrecognized (doc : Doc) (k : String)
    (h : k ∉ DEFAULT_CONFIG.map Prod.fst) :
    lookupJ (validateConfig doc).1 k = lookupJ doc k ∧
    lookupJ (load_config (FileState.parsed doc)).1 k = lookupJ doc k ∧
    (∀ d', (load_config (FileState.parsed doc)).2 = FileState.parsed d' →
      lookupJ d' k = lookupJ doc k) := by
  have hv : lookupJ (validateConfig doc).1 k = lookupJ doc k := by
    have hmp3 : k ≠ "mp3_quality" := fun e => h (by rw [e]; decide)
    have hfmt : k ≠ "default_format" := fun e => h (by rw [e]; decide)
    have horg : k ≠ "organize_downloads" := fun e => h (by rw [e]; decide)
    have hmet : k ≠ "download_metadata" := fun e => h (by rw [e]; decide)
    have hcom : k ≠ "download_comments" := fun e => h (by rw [e]; decide)
    have hsub : k ≠ "download_subtitles" := fun e => h (by rw [e]; decide)
    have hmax : k ≠ "max_comments" := fun e => h (by rw [e]; decide)
    unfold validateConfig
    rw [stepMaxComments_lookup_ne _ k hmax,
      stepBool_lookup_ne "download_subtitles" (jbool false) false _ k hsub,
      stepBool_lookup_ne "download_comments" (jbool false) false _ k hcom,
      stepBool_lookup_ne "download_metadata" (jbool true) true _ k hmet,
      stepBool_lookup_ne "organize_downloads" (jbool false) false _ k horg,
      stepFormat_lookup_ne _ k hfmt, stepMp3_lookup_ne _ k hmp3]
    exact addMissingAux_lookup_of_not_mem
      (fun kv hm e => h (by rw [← e]; exact List.mem_map_of_mem Prod.fst hm))
  refine ⟨hv, by simp only [load_config_parsed_eq]; exact hv, ?_⟩
  intro d' hd
  simp only [load_config_parsed_eq] at hd
  cases hflag : (validateConfig doc).2 with
  | false =>
    rw [hflag] at hd
    simp only [Bool.false_eq_true, if_false, FileState.parsed.injEq] at hd
    rw [← hd]
  | true =>
    rw [hflag] at hd
    simp only [if_true, FileState.parsed.injEq] at hd
    rw [← hd]
    exact hv

/-- Witness for claim C10 at a document holding only an unrecognized key. -/
theorem validateConfig_preserves_unrecognized_witness :
    lookupJ (validateConfig [("custom_key", jnull)]).1 "custom_key" =
      lookupJ [("custom_key", jnull)] "custom_key" :=
  (validateConfig_preserves_unrecognized [("custom_key", jnull)] "custom_key" (by decide)).1

/-! ## Claim theorems about `sanitize_filename` -/

/-- Written to the claim's wording for C5: replacement as a single
per-character map. -/
def sanChar (c : Char) : Char :=
  if c ∈ INVALID_FILENAME_CHARS then '_' else c

/-- Written to the claim's wording for C5: the sanitize pipeline — blank
input to `"Unknown"`, map each of `<>:"/\|?*` to `_`, strip leading and
trailing dots and spaces, truncate to 100 characters, empty result to
`"Unknown"`. -/
def sanitizeSpec (name : String) : String :=
  if name.data.all isPySpace then "Unknown"
  else finishName ((stripBoth dotSpace (name.data.map sanChar)).take 100)

theorem stripBoth_eq_nil_iff (p : Char → Bool) (cs : List Char) :
    stripBoth p cs = [] ↔ ∀ c ∈ cs, p c = true := by
  unfold stripBoth
  rw [List.reverse_eq_nil_iff, List.dropWhile_eq_nil_iff]
  constructor
  · intro h
    have h2 : ∀ x ∈ cs.dropWhile p, p x = true :=
      fun x hx => h x (List.mem_reverse.mpr hx)
    have h3 : cs.dropWhile p = [] := by
      have h4 := @List.dropWhile_eq_nil_iff Char p (cs.dropWhile p)
      rw [List.dropWhile_idempotent] at h4
      exact h4.mpr h2
    exact List.dropWhile_eq_nil_iff.mp h3
  · intro h x hx
    exact h x ((List.dropWhile_sublist p).mem (List.mem_reverse.mp hx))

theorem foldl_replaceChar_eq_map (cl : List Char) (cs : List Char) :
    cl.foldl replaceChar cs =
      cs.map (fun x => cl.foldl (fun y c => if y = c then '_' else y) x) := by
  induction cl generalizing cs with
  | nil => simp
  | cons c cl ih =>
    simp only [List.foldl_cons]
    rw [ih]
    unfold replaceChar
    rw [List.map_map]
    rfl

theorem foldl_rep_eq_mem (cl : List Char) (h : '_' ∉ cl) (x : Char) :
    cl.foldl (fun y c => if y = c then '_' else y) x =
      if x ∈ cl then '_' else x := by
  induction cl generalizing x with
  | nil => simp
  | cons c cl ih =>
    have hcl : '_' ∉ cl := fun hm => h (List.mem_cons_of_mem _ hm)
    simp only [List.foldl_cons]
    by_cases hx : x = c
    · subst hx
      rw [if_pos rfl, ih hcl, if_neg hcl, if_pos (List.mem_cons_self x cl)]
    · rw [if_neg hx, ih hcl]
      by_cases hm : x ∈ cl
      · rw [if_pos hm, if_pos (List.mem_cons_of_mem _ hm)]
      · rw [if_neg hm, if_neg (by simp [List.mem_cons, hx, hm])]

theorem sanitize_blank_iff (s : String) :
    (s = "" ∨ String.mk (stripBoth isPySpace s.data) = "") ↔
      s.data.all isPySpace = true := by
  rw [List.all_eq_true]
  constructor
  · rintro (rfl | h)
    · intro c hc
      simp at hc
    · have h0 : stripBoth isPySpace s.data = [] := by
        have h1 := congrArg String.data h
        simpa using h1
      exact (stripBoth_eq_nil_iff _ _).mp h0
  · intro h
    right
    rw [(stripBoth_eq_nil_iff isPySpace s.data).mpr h]

theorem sanitize_filename_eq_spec (s : String) :
    sanitize_filename s = sanitizeSpec s := by
  unfold sanitize_filename sanitizeSpec
  by_cases hb : s.data.all isPySpace = true
  · rw [if_pos ((sanitize_blank_iff s).mpr hb), if_pos hb]
  · rw [if_neg (fun hh => hb ((sanitize_blank_iff s).mp hh)), if_neg hb]
    have hrepl : INVALID_FILENAME_CHARS.foldl replaceChar s.data =
        s.data.map sanChar := by
      rw [foldl_replaceChar_eq_map]
      refine List.map_congr_left fun x _ => ?_
      rw [foldl_rep_eq_mem _ (by decide) x]
      rfl
    rw [hrepl]
    unfold truncate100
    by_cases hlen : (stripBoth dotSpace (s.data.map sanChar)).length > 100
    · rw [if_pos hlen]
    · rw [if_neg hlen, List.take_of_length_le (by omega)]

theorem length_sanitize_le (s : String) : (sanitize_filename s).length ≤ 100 := by
  rw [sanitize_filename_eq_spec]
  unfold sanitizeSpec
  by_cases hb : s.data.all isPySpace = true
  · rw [if_pos hb]
    decide
  · rw [if_neg hb]
    unfold finishName
    by_cases he : ((stripBoth dotSpace (s.data.map sanChar)).take 100).isEmpty = true
    · rw [if_pos he]
      decide
    · rw [if_neg he]
      show (List.take 100 _).length ≤ 100
      rw [List.length_take]
      omega

set_option maxRecDepth 20000 in
/-- Claim C5: `sanitize_filename` behaves exactly as the claimed pipeline
(blank input to `"Unknown"`; each of `<>:"/\|?*` replaced by `_`; leading
and trailing dots and spaces stripped; truncation to 100 characters; empty
result to `"Unknown"`); its output never exceeds 100 characters; and the
quoted examples hold, including a 150-character input truncating to 100
characters. -/
theorem sanitize_filename_meets_spec :
    (∀ s, sanitize_filename s = sanitizeSpec s) ∧
    (∀ s, (sanitize_filename s).length ≤ 100) ∧
    sanitize_filename "" = "Unknown" ∧
    sanitize_filename "a/b\\c" = "a_b_c" ∧
    sanitize_filename ".hidden." = "hidden" ∧
    (sanitize_filename (String.mk (List.replicate 150 'a'))).length = 100 :=
  ⟨sanitize_filename_eq_spec, length_sanitize_le, rfl, rfl, rfl, by decide⟩

/-! ## Claim theorems about `detect_platform_from_url` -/

theorem find?_append_cons {α : Type} (p : α → Bool) (l1 : List α) (a : α)
    (l2 : List α) (ha : p a = true) (hl : ∀ x ∈ l1, p x = false) :
    List.find? p (l1 ++ a :: l2) = some a := by
  induction l1 with
  | nil => simp [List.find?_cons_of_pos, ha]
  | cons b l1 ih =>
    have hb := hl b (List.mem_cons_self b l1)
    rw [List.cons_append, List.find?_cons_of_neg _ (by simp [hb])]
    exact ih fun x hx => hl x (List.mem_cons_of_mem _ hx)

/-- Claim C6: platform detection lower-cases the URL and walks the ordered
`platform_map` table; the first entry whose domain fragment occurs as a
substring wins, and a URL matching no entry yields `"Other"`; in
particular the two quoted examples hold. -/
theorem detect_platform_first_match :
    (∀ url kv l1 l2, platform_map = l1 ++ kv :: l2 →
      containsSeg kv.1.data (pyLower url).data = true →
      (∀ kv' ∈ l1, containsSeg kv'.1.data (pyLower url).data = false) →
      detect_platform_from_url url = kv.2) ∧
    (∀ url, (∀ kv ∈ platform_map, containsSeg kv.1.data (pyLower url).data = false) →
      detect_platform_from_url url = "Other") ∧
    detect_platform_from_url "https://youtu.be/xyz" = "YouTube" ∧
    detect_platform_from_url "https://example.com/video" = "Other" := by
  refine ⟨?_, ?_, rfl, rfl⟩
  · intro url kv l1 l2 heq hmatch hprev
    have hf : List.find? (fun kv' => containsSeg kv'.1.data (pyLower url).data)
        platform_map = some kv := by
      rw [heq]
      exact find?_append_cons _ _ _ _ hmatch hprev
    simp only [detect_platform_from_url]
    rw [hf]
  · intro url h
    have hf : List.find? (fun kv' => containsSeg kv'.1.data (pyLower url).data)
        platform_map = none :=
      List.find?_eq_none.mpr fun x hx => by simp [h x hx]
    simp only [detect_platform_from_url]
    rw [hf]

/-- Witness for claim C6 with the first table entry matching. -/
theorem detect_platform_first_match_witness :
    detect_platform_from_url "https://www.youtube.com/watch" = "YouTube" :=
  detect_platform_first_match.1 "https://www.youtube.com/watch"
    ("youtube.com", "YouTube") [] platform_map.tail rfl (by decide)
    (fun kv' h => absurd h (List.not_mem_nil kv'))

/-! ## Claim theorems about `get_organized_download_path` -/

/-- Written to the claim's wording for C7: the uploader taken from the
metadata — its `uploader` field, falling back to its `channel` field, then
`"Unknown"`. -/
def specInfoUploader : Option (List (String × String)) → String
  | some m => (m.lookup "uploader").getD ((m.lookup "channel").getD "Unknown")
  | none => "Unknown"

/-- The uploader the code selects: an override that is given but empty is
ignored (Python truthiness) and the metadata is consulted instead — the
one deviation from the claim's "the override if given". -/
def specUploader (info : Option (List (String × String))) (ov : Option String) :
    String :=
  match ov with
  | some s => if s = "" then specInfoUploader info else s
  | none => specInfoUploader info

/-- Claim C7, counterexample: with organization enabled, an uploader
override that is given but empty is ignored in favour of the metadata's
uploader, while the claim (override used whenever given) predicts
`"Unknown"` from sanitizing the empty override. -/
theorem organize_path_empty_override_counterexample :
    get_organized_download_path [("organize_downloads", jbool true)] "media"
      "https://youtu.be/x" (some [("uploader", "alice")]) (some "") =
      "media/YouTube/alice" ∧
    joinPath2 (joinPath2 "media" (detect_platform_from_url "https://youtu.be/x"))
      (sanitize_filename "") = "media/YouTube/Unknown" ∧
    ("media/YouTube/alice" : String) ≠ "media/YouTube/Unknown" :=
  ⟨rfl, rfl, by decide⟩

/-- Claim C7 as amended: with organization disabled in the configuration
the base directory is returned unchanged regardless of URL, metadata and
override; with organization enabled the result is
`base / detect_platform(url) / sanitize(uploader)` where the uploader is
the override when it is given and non-empty, otherwise the metadata's
uploader field (falling back to its channel field), otherwise
`"Unknown"`. -/
theorem get_organized_download_path_spec (config : Doc) (dir url : String)
    (info : Option (List (String × String))) (ov : Option String) :
    (pyTruthy (getJ config "organize_downloads" (jbool false)) = false →
      get_organized_download_path config dir url info ov = dir) ∧
    (pyTruthy (getJ config "organize_downloads" (jbool false)) = true →
      get_organized_download_path config dir url info ov =
        joinPath2 (joinPath2 dir (detect_platform_from_url url))
          (sanitize_filename (specUploader info ov))) := by
  constructor
  · intro h
    simp only [get_organized_download_path, h]
    simp
  · intro h
    simp only [get_organized_download_path, h]
    cases ov with
    | none =>
      cases info with
      | none => rfl
      | some m =>
        by_cases hm : m.isEmpty
        · have hnil : m = [] := by
            cases m with
            | nil => rfl
            | cons a t => simp [List.isEmpty] at hm
          subst hnil
          rfl
        · simp [specUploader, specInfoUploader, hm]
    | some s =>
      by_cases hs : s = ""
      · subst hs
        simp only [specUploader, if_pos rfl]
        cases info with
        | none => rfl
        | some m =>
          by_cases hm : m.isEmpty
          · have hnil : m = [] := by
              cases m with
              | nil => rfl
              | cons a t => simp [List.isEmpty] at hm
            subst hnil
            rfl
          · simp [specUploader, specInfoUploader, hm]
      · simp [specUploader, specInfoUploader, hs]

/-- Witness for the amended claim C7: organization disabled returns the
base directory. -/
theorem get_organized_download_path_spec_witness :
    get_organized_download_path [("organize_downloads", jbool false)] "media"
      "https://youtu.be/x" none none = "media" :=
  (get_organized_download_path_spec [("organize_downloads", jbool false)] "media"
    "https://youtu.be/x" none none).1 rfl

/-! ## Claim theorems about `get_unique_filename` -/

/-- The character of decimal digit `d`. -/
def digitChar (d : Nat) : Char := Char.ofNat (48 + d)

theorem decStrAux_eq_digits (fuel : Nat) :
    ∀ (n : Nat) (acc : List Char), n < fuel →
      decStrAux fuel n acc =
        (if n = 0 then ['0'] else ((Nat.digits 10 n).reverse.map digitChar)) ++ acc := by
  induction fuel with
  | zero => intro n acc h; omega
  | succ fuel ih =>
    intro n acc h
    by_cases h10 : n < 10
    · simp only [decStrAux, if_pos h10]
      by_cases h0 : n = 0
      · subst h0
        simp [digitChar]
      · rw [if_neg h0]
        have h1 : Nat.digits 10 n = [n] := by
          rw [Nat.digits_def' (by norm_num : (1:Nat) < 10) (Nat.pos_of_ne_zero h0),
            Nat.mod_eq_of_lt h10, Nat.div_eq_of_lt h10, Nat.digits_zero]
        rw [h1]
        simp [digitChar, Nat.mod_eq_of_lt h10]
    · simp only [decStrAux, if_neg h10]
      push_neg at h10
      have hpos : 0 < n := by omega
      have hdivlt : n / 10 < n := Nat.div_lt_self hpos (by norm_num)
      have hdiv : n / 10 < fuel := by omega
      rw [ih _ _ hdiv]
      have hdivpos : n / 10 ≠ 0 :=
        Nat.pos_iff_ne_zero.mp (Nat.div_pos h10 (by norm_num))
      rw [if_neg hdivpos, if_neg (by omega : ¬ n = 0),
        Nat.digits_def' (by norm_num : (1:Nat) < 10) hpos]
      simp [digitChar, List.append_assoc]

theorem decStr_eq (n : Nat) :
    decStr n =
      String.mk (if n = 0 then ['0'] else ((Nat.digits 10 n).reverse.map digitChar)) := by
  unfold decStr
  rw [decStrAux_eq_digits _ _ _ (Nat.lt_succ_self n)]
  simp

theorem digitChar_inj_lt : ∀ d1 < 10, ∀ d2 < 10, digitChar d1 = digitChar d2 → d1 = d2 := by
  decide

theorem map_digitChar_inj : ∀ (l1 l2 : List Nat), (∀ x ∈ l1, x < 10) →
    (∀ x ∈ l2, x < 10) → l1.map digitChar = l2.map digitChar → l1 = l2 := by
  intro l1
  induction l1 with
  | nil =>
    intro l2 _ _ h
    cases l2 with
    | nil => rfl
    | cons b t2 => simp at h
  | cons a t ih =>
    intro l2 h1 h2 h
    cases l2 with
    | nil => simp at h
    | cons b t2 =>
      simp only [List.map_cons, List.cons.injEq] at h
      have ha := h1 a (List.mem_cons_self a t)
      have hb := h2 b (List.mem_cons_self b t2)
      rw [digitChar_inj_lt a ha b hb h.1,
        ih t2 (fun x hx => h1 x (List.mem_cons_of_mem _ hx))
          (fun x hx => h2 x (List.mem_cons_of_mem _ hx)) h.2]

theorem digits_eq_zero_singleton_absurd {b : Nat} (hb : b ≠ 0)
    (h : ['0'] = (Nat.digits 10 b).reverse.map digitChar) : False := by
  have hlen : (Nat.digits 10 b).length = 1 := by
    have := congrArg List.length h
    simpa using this.symm
  obtain ⟨d, hd⟩ := List.length_eq_one.mp hlen
  rw [hd] at h
  simp only [List.reverse_singleton, List.map_cons, List.map_nil] at h
  have hdlt : d < 10 :=
    Nat.digits_lt_base (by norm_num) (by rw [hd]; exact List.mem_singleton_self d)
  have hd0 : d = 0 := digitChar_inj_lt d hdlt 0 (by norm_num)
    (by simpa [digitChar] using h.symm) |>.symm ▸ rfl
  have hb0 : b = 0 := by
    have hof := Nat.ofDigits_digits 10 b
    rw [hd, hd0] at hof
    simpa [Nat.ofDigits] using hof.symm
  exact hb hb0

theorem decStr_injective : Function.Injective decStr := by
  intro a b h
  rw [decStr_eq, decStr_eq] at h
  have h' : (if a = 0 then ['0'] else ((Nat.digits 10 a).reverse.map digitChar)) =
      (if b = 0 then ['0'] else ((Nat.digits 10 b).reverse.map digitChar)) := by
    have := congrArg String.data h
    simpa using this
  by_cases ha : a = 0 <;> by_cases hb : b = 0
  · omega
  · rw [if_pos ha, if_neg hb] at h'
    exact absurd (digits_eq_zero_singleton_absurd hb h') not_false
  · rw [if_neg ha, if_pos hb] at h'
    exact absurd (digits_eq_zero_singleton_absurd ha h'.symm) not_false
  · rw [if_neg ha, if_neg hb] at h'
    have hda : ∀ x ∈ (Nat.digits 10 a).reverse, x < 10 :=
      fun x hx => Nat.digits_lt_base (by norm_num) (List.mem_reverse.mp hx)
    have hdb : ∀ x ∈ (Nat.digits 10 b).reverse, x < 10 :=
      fun x hx => Nat.digits_lt_base (by norm_num) (List.mem_reverse.mp hx)
    have hrev := map_digitChar_inj _ _ hda hdb h'
    have hdig : Nat.digits 10 a = Nat.digits 10 b := by
      have := congrArg List.reverse hrev
      simpa using this
    have hofa := Nat.ofDigits_digits 10 a
    have hofb := Nat.ofDigits_digits 10 b
    rw [hdig] at hofa
    omega

theorem mkCandidate_inj (base ext : String) {a b : Nat}
    (h : mkCandidate base ext a = mkCandidate base ext b) : a = b := by
  unfold mkCandidate at h
  have h' := congrArg String.data h
  simp only [String.data_append, List.append_assoc] at h'
  have h2 := List.append_cancel_left h'
  have h3 := List.append_cancel_left h2
  have h4 := List.append_cancel_right h3
  have h5 : decStr a = decStr b := by
    have := congrArg String.mk h4
    simpa using this
  exact decStr_injective h5

theorem exists_free_candidate (fs : List String) (base ext : String) (c : Nat) :
    ∃ j, j ≤ fs.length ∧ mkCandidate base ext (c + j) ∉ fs := by
  by_contra hcon
  push_neg at hcon
  have hnodup : ((List.range (fs.length + 1)).map
      (fun j => mkCandidate base ext (c + j))).Nodup := by
    refine List.Nodup.map ?_ (List.nodup_range _)
    intro x y hxy
    have := mkCandidate_inj base ext hxy
    omega
  have hsub : ((List.range (fs.length + 1)).map
      (fun j => mkCandidate base ext (c + j))).toFinset ⊆ fs.toFinset := by
    intro x hx
    rw [List.mem_toFinset, List.mem_map] at hx
    obtain ⟨j, hj, rfl⟩ := hx
    rw [List.mem_toFinset]
    exact hcon j (by have := List.mem_range.mp hj; omega)
  have hcard1 : ((List.range (fs.length + 1)).map
      (fun j => mkCandidate base ext (c + j))).toFinset.card = fs.length + 1 := by
    rw [List.toFinset_card_of_nodup hnodup, List.length_map, List.length_range]
  have hle := Finset.card_le_card hsub
  have hfle := List.toFinset_card_le fs
  omega

theorem searchFree_spec (fs : List String) (base ext : String) :
    ∀ (fuel c : Nat), (∃ j, j < fuel ∧ mkCandidate base ext (c + j) ∉ fs) →
      ∃ j, searchFree fs base ext fuel c = mkCandidate base ext (c + j) ∧
        mkCandidate base ext (c + j) ∉ fs ∧
        ∀ i < j, mkCandidate base ext (c + i) ∈ fs := by
  intro fuel
  induction fuel with
  | zero =>
    intro c h
    obtain ⟨j, hj, _⟩ := h
    omega
  | succ fuel ih =>
    intro c h
    by_cases hc : mkCandidate base ext c ∈ fs
    · obtain ⟨j, hj, hfree⟩ := h
      have hj0 : j ≠ 0 := by
        intro e
        subst e
        rw [Nat.add_zero] at hfree
        exact hfree hc
      obtain ⟨j', rfl⟩ : ∃ j', j = j' + 1 := ⟨j - 1, by omega⟩
      have hex : ∃ j2, j2 < fuel ∧ mkCandidate base ext (c + 1 + j2) ∉ fs :=
        ⟨j', by omega, by rwa [show c + 1 + j' = c + (j' + 1) by omega]⟩
      obtain ⟨j2, heq, hfree2, hmin⟩ := ih (c + 1) hex
      refine ⟨j2 + 1, ?_, ?_, ?_⟩
      · simp only [searchFree, if_pos hc]
        rw [show c + (j2 + 1) = c + 1 + j2 by omega]
        exact heq
      · rwa [show c + (j2 + 1) = c + 1 + j2 by omega]
      · intro i hi
        cases i with
        | zero => simpa using hc
        | succ i' =>
          have := hmin i' (by omega)
          rwa [show c + (i' + 1) = c + 1 + i' by omega]
    · refine ⟨0, ?_, ?_, ?_⟩
      · simp only [searchFree, if_neg hc, Nat.add_zero]
      · rwa [Nat.add_zero]
      · intro i hi
        omega

/-- Claim C8: `get_unique_filename` returns a non-existing path unchanged;
an existing path becomes `base (n) ext` for the smallest `n ≥ 1` whose name
is unused (the search is total for every finite filesystem); and with
`"a.mp4"` and `"a (1).mp4"` both present, `"a.mp4"` maps to
`"a (2).mp4"`. -/
theorem get_unique_filename_spec :
    (∀ (fs : List String) (filename : String), filename ∉ fs →
      get_unique_filename fs filename = filename) ∧
    (∀ (fs : List String) (filename : String), filename ∈ fs →
      ∃ n, 1 ≤ n ∧
        get_unique_filename fs filename =
          mkCandidate (splitext filename).1 (splitext filename).2 n ∧
        mkCandidate (splitext filename).1 (splitext filename).2 n ∉ fs ∧
        ∀ m, 1 ≤ m → m < n →
          mkCandidate (splitext filename).1 (splitext filename).2 m ∈ fs) ∧
    get_unique_filename ["a.mp4", "a (1).mp4"] "a.mp4" = "a (2).mp4" := by
  refine ⟨?_, ?_, rfl⟩
  · intro fs filename h
    simp [get_unique_filename, h]
  · intro fs filename h
    obtain ⟨j, hj, hfree⟩ :=
      exists_free_candidate fs (splitext filename).1 (splitext filename).2 1
    have hex : ∃ j2, j2 < fs.length + 1 ∧
        mkCandidate (splitext filename).1 (splitext filename).2 (1 + j2) ∉ fs :=
      ⟨j, by omega, hfree⟩
    obtain ⟨j2, heq, hfree2, hmin⟩ :=
      searchFree_spec fs (splitext filename).1 (splitext filename).2 (fs.length + 1) 1 hex
    refine ⟨1 + j2, by omega, ?_, hfree2, ?_⟩
    · simp only [get_unique_filename, if_pos h]
      exact heq
    · intro m hm1 hmlt
      obtain ⟨i, rfl⟩ : ∃ i, m = 1 + i := ⟨m - 1, by omega⟩
      exact hmin i (by omega)

/-- Witness for claim C8: a filename absent from the filesystem is
returned unchanged. -/
theorem get_unique_filename_spec_witness :
    get_unique_filename ["b.mp4"] "a.mp4" = "a.mp4" :=
  get_unique_filename_spec.1 ["b.mp4"] "a.mp4" (by decide)

/-! ## Claim theorems about the credential vault -/

/-- Claim C9: under the documented contracts of the external primitives —
the text codec (`str.encode` / `bytes.decode`), Fernet under the one
stored key, and url-safe base64 — decryption is a left inverse of
encryption for every string, including the empty string and multi-byte
text; and `_decrypt_credential` returns the empty string rather than
signalling an error whenever any stage fails: invalid base64 input (such
as the literal `"garbage"`), an invalid Fernet token (wrong key, corrupted
data, tampering), or an undecodable plaintext. -/
theorem decrypt_encrypt_roundtrip (c : CredentialCodec)
    (hstr : ∀ s, c.strDecode (c.strEncode s) = some s)
    (hfer : ∀ bs, c.fernetDecrypt (c.fernetEncrypt bs) = some bs)
    (hb64 : ∀ bs, c.b64decode (c.b64encode bs) = some bs) :
    (∀ s, decrypt_credential c (encrypt_credential c s) = s) ∧
    (∀ junk, c.b64decode junk = none → decrypt_credential c junk = "") ∧
    (∀ junk bs, c.b64decode junk = some bs → c.fernetDecrypt bs = none →
      decrypt_credential c junk = "") ∧
    (∀ junk bs pt, c.b64decode junk = some bs → c.fernetDecrypt bs = some pt →
      c.strDecode pt = none → decrypt_credential c junk = "") := by
  refine ⟨?_, ?_, ?_, ?_⟩
  · intro s
    simp only [decrypt_credential, encrypt_credential, hb64, hfer, hstr,
      Option.getD_some]
  · intro junk hj
    simp only [decrypt_credential, hj]
  · intro junk bs h1 h2
    simp only [decrypt_credential, h1, h2]
  · intro junk bs pt h1 h2 h3
    simp only [decrypt_credential, h1, h2, h3, Option.getD_none]

/-- Unary byte-string coding, used only to witness the codec contracts
with a concrete instance. -/
def unaryEncode : List Nat → List Char
  | [] => []
  | n :: t => List.replicate n 'a' ++ 'b' :: unaryEncode t

/-- Decoder for `unaryEncode`: count each run of `'a'`s closed by a
`'b'`; anything else fails. -/
def unaryDecodeAux : List Char → Nat → List Nat → Option (List Nat)
  | [], k, acc => if k = 0 then some acc.reverse else none
  | ch :: t, k, acc =>
    if ch = 'a' then unaryDecodeAux t (k + 1) acc
    else if ch = 'b' then unaryDecodeAux t 0 (k :: acc)
    else none

theorem unaryDecodeAux_replicate (n : Nat) :
    ∀ (t : List Char) (k : Nat) (acc : List Nat),
      unaryDecodeAux (List.replicate n 'a' ++ t) k acc =
        unaryDecodeAux t (k + n) acc := by
  induction n with
  | zero =>
    intro t k acc
    simp
  | succ n ih =>
    intro t k acc
    rw [List.replicate_succ, List.cons_append]
    simp only [unaryDecodeAux, if_pos rfl]
    rw [show k + (n + 1) = k + 1 + n by omega, ih]
    simp

theorem unaryDecodeAux_encode (bs : List Nat) :
    ∀ acc, unaryDecodeAux (unaryEncode bs) 0 acc = some (acc.reverse ++ bs) := by
  induction bs with
  | nil =>
    intro acc
    simp [unaryEncode, unaryDecodeAux]
  | cons n t ih =>
    intro acc
    rw [unaryEncode, unaryDecodeAux_replicate]
    simp only [unaryDecodeAux, Nat.zero_add]
    simp [ih]

/-- A concrete codec satisfying all three contracts, used to witness
claim C9. -/
def trivialCodec : CredentialCodec where
  strEncode s := s.data.map Char.toNat
  strDecode bs := some (String.mk (bs.map Char.ofNat))
  fernetEncrypt := id
  fernetDecrypt bs := some bs
  b64encode bs := String.mk (unaryEncode bs)
  b64decode s := unaryDecodeAux s.data 0 []

theorem trivialCodec_str (s : String) :
    trivialCodec.strDecode (trivialCodec.strEncode s) = some s := by
  simp only [trivialCodec, List.map_map]
  have h1 : s.data.map (Char.ofNat ∘ Char.toNat) = s.data := by
    rw [List.map_congr_left fun c _ => ?_, List.map_id]
    exact Char.ofNat_toNat c
  rw [h1]

theorem trivialCodec_b64 (bs : List Nat) :
    trivialCodec.b64decode (trivialCodec.b64encode bs) = some bs := by
  simp only [trivialCodec]
  simpa using unaryDecodeAux_encode bs []

/-- Witness for claim C9 at a multi-byte credential and the literal
`"garbage"`. -/
theorem decrypt_encrypt_roundtrip_witness :
    decrypt_credential trivialCodec (encrypt_credential trivialCodec "mot de pässe 密码") =
      "mot de pässe 密码" ∧
    decrypt_credential trivialCodec "garbage" = "" :=
  ⟨(decrypt_encrypt_roundtrip trivialCodec trivialCodec_str (fun _ => rfl)
      trivialCodec_b64).1 "mot de pässe 密码",
   (decrypt_encrypt_roundtrip trivialCodec trivialCodec_str (fun _ => rfl)
      trivialCodec_b64).2.1 "garbage" (by rfl)⟩

end SMD
